import Mathlib

/-!
Shallow embedding of the weth REPL's core state mutators (src/src/main.go):
the time-state mutator setTime, the location-state mutator setLocation, the
display function printTime, and the month-code table.  Go machine integers are
modelled as unbounded Int (the program never exercises 64-bit overflow on the
inputs the spec discusses; strconv.Atoi's overflow error is not modelled).
Go strings are Lean Strings; character-level work happens on String.data.
The stored internalTime is a Go time.Time; we model its observable
(Hour, Day, Month, Year) projection as a TimeRec, and model the commit
internalTime = time.Date(year, month, day, hour, 0, 0, 0, loc) by goDate,
which performs the calendar normalization that time.Date documents
("values outside their usual ranges will be normalized ... October 32
converts to November 1") on the proleptic Gregorian calendar.
-/

namespace Weth

/-- Observable projection of the stored Go time.Time: hour, day, month, year. -/
structure TimeRec where
  hour : Int
  day : Int
  month : Int
  year : Int
deriving Repr, DecidableEq

/-- Go struct Location (main.go lines 48-53). -/
structure Location where
  country : String
  region : String
  city : String
  timezone : String
deriving Repr, DecidableEq

/-- The package-level mutable state of the program: internalTime, militaryTime,
internalLocation and defaultLocation. -/
structure GoState where
  internalTime : TimeRec
  militaryTime : Bool
  internalLocation : Location
  defaultLocation : Location
deriving Repr, DecidableEq

/-! ### Parsers: strconv.Atoi, strconv.ParseBool, strings.ToLower -/

/-- Accumulator half of strconv.Atoi on base-10 digits: consumes the digit
characters, returning none on the first non-digit. -/
def digitsVal : List Char → Nat → Option Nat
  | [], acc => some acc
  | c :: cs, acc =>
      if c.isDigit then digitsVal cs (acc * 10 + (c.toNat - '0'.toNat)) else none

/-- Go strconv.Atoi on the character list of the token: an optional single
leading plus or minus sign followed by at least one base-10 digit, nothing
else.  (Atoi's int64 overflow error is not modelled; tokens of interest are
far below that bound.) -/
def parseIntChars : List Char → Option Int
  | [] => none
  | '+' :: cs => match cs with
      | [] => none
      | _ :: _ => (digitsVal cs 0).map (fun n => (n : Int))
  | '-' :: cs => match cs with
      | [] => none
      | _ :: _ => (digitsVal cs 0).map (fun n => -(n : Int))
  | cs => (digitsVal cs 0).map (fun n => (n : Int))

/-- Go strconv.ParseBool accepts exactly these twelve strings. -/
def parseBoolChars (cs : List Char) : Option Bool :=
  if cs = "1".data ∨ cs = "t".data ∨ cs = "T".data ∨
     cs = "TRUE".data ∨ cs = "true".data ∨ cs = "True".data then some true
  else if cs = "0".data ∨ cs = "f".data ∨ cs = "F".data ∨
     cs = "FALSE".data ∨ cs = "false".data ∨ cs = "False".data then some false
  else none

/-- Go strings.ToLower, restricted to ASCII (every month-code key is ASCII;
Char.toLower lowercases exactly the ASCII uppercase letters). -/
def toLowerChars (cs : List Char) : List Char := cs.map Char.toLower

/-- Boolean prefix test on character lists, modelling strings.HasPrefix. -/
def hasPfx : List Char → List Char → Bool
  | [], _ => true
  | _ :: _, [] => false
  | p :: ps, c :: cs => if p = c then hasPfx ps cs else false

/-! ### The month-code tables (main.go lines 39-40) -/

/-- Go map validMonthCodes; a missing key yields the zero value 0, exactly as
Go map indexing does. -/
def validMonthCodes (cs : List Char) : Int :=
  if cs = "january".data then 1 else if cs = "february".data then 2
  else if cs = "march".data then 3 else if cs = "april".data then 4
  else if cs = "may".data then 5 else if cs = "june".data then 6
  else if cs = "july".data then 7 else if cs = "august".data then 8
  else if cs = "september".data then 9 else if cs = "october".data then 10
  else if cs = "november".data then 11 else if cs = "december".data then 12
  else if cs = "jan".data then 1 else if cs = "feb".data then 2
  else if cs = "mar".data then 3 else if cs = "apr".data then 4
  else if cs = "jun".data then 6 else if cs = "jul".data then 7
  else if cs = "aug".data then 8 else if cs = "sep".data then 9
  else if cs = "oct".data then 10 else if cs = "nov".data then 11
  else if cs = "dec".data then 12 else 0

/-- Go map codesToMonth; a missing key yields the zero value, the empty
string. -/
def codesToMonth (n : Int) : String :=
  if n = 1 then "January" else if n = 2 then "February"
  else if n = 3 then "March" else if n = 4 then "April"
  else if n = 5 then "May" else if n = 6 then "June"
  else if n = 7 then "July" else if n = 8 then "August"
  else if n = 9 then "September" else if n = 10 then "October"
  else if n = 11 then "November" else if n = 12 then "December"
  else ""

/-! ### Go time.Date calendar normalization

time.Date(year, month, day, hour, 0, 0, 0, loc) first folds the hour into the
day and the month into the year (floor division), then converts the possibly
out-of-range day through the day count of the proleptic Gregorian calendar.
civilToDays and civilFromDays are the standard civil-calendar conversions
(days counted from 1970-01-01); composing them performs exactly the day-level
normalization time.Date documents (October 32 becomes November 1, and so on).
-/

/-- Day number (days since 1970-01-01) of the first day of month m of year y,
for m between 1 and 12. -/
def civilToDays (y m : Int) : Int :=
  let y1 : Int := if m ≤ 2 then y - 1 else y
  let era : Int := Int.fdiv y1 400
  let yoe : Nat := (y1 - era * 400).toNat
  let mp : Nat := (if m ≤ 2 then m + 9 else m - 3).toNat
  let doy : Nat := (153 * mp + 2) / 5
  let doe : Nat := yoe * 365 + yoe / 4 - yoe / 100 + doy
  era * 146097 + (doe : Int) - 719468

/-- Inverse conversion: year, month and day of a day number (days since
1970-01-01) in the proleptic Gregorian calendar. -/
def civilFromDays (z : Int) : Int × Int × Int :=
  let zd : Int := z + 719468
  let era : Int := Int.fdiv zd 146097
  let doe : Nat := (zd - era * 146097).toNat
  let yoe : Nat := (doe - doe / 1460 + doe / 36524 - doe / 146096) / 365
  let y : Int := (yoe : Int) + era * 400
  let doy : Nat := doe - (365 * yoe + yoe / 4 - yoe / 100)
  let mp : Nat := (5 * doy + 2) / 153
  let d : Int := (doy : Int) - (((153 * mp + 2) / 5 : Nat) : Int) + 1
  let m : Int := if mp < 10 then (mp : Int) + 3 else (mp : Int) - 9
  (if m ≤ 2 then y + 1 else y, m, d)

/-- Observable result of internalTime = time.Date(year, month, day, hour,
0, 0, 0, time.Local): hour folded into day modulo 24, month folded into year
modulo 12, then the day normalized through the civil calendar. -/
def goDate (year month day hour : Int) : TimeRec :=
  let day1 : Int := day + Int.fdiv hour 24
  let hour1 : Int := Int.fmod hour 24
  let year1 : Int := year + Int.fdiv (month - 1) 12
  let month1 : Int := Int.fmod (month - 1) 12 + 1
  let c := civilFromDays (civilToDays year1 month1 + (day1 - 1))
  { hour := hour1, day := c.2.2, month := c.2.1, year := c.1 }

/-! ### printTime (main.go lines 58-75) -/

/-- Hour rendering chosen by printTime: in non-military mode an hour above 12
prints hour mod 12 followed by PM and any other hour prints the hour followed
by AM; in military mode the hour is followed by a colon and two zeros.
(Go's % on the stored hour, which is never negative, agrees with Int.emod.) -/
def hourRepr (st : GoState) : String :=
  if !st.militaryTime then
    if 12 < st.internalTime.hour then toString (st.internalTime.hour % 12) ++ "PM"
    else toString st.internalTime.hour ++ "AM"
  else toString st.internalTime.hour ++ ":00"

/-- Go printTime: hour representation, comma, month name, day, comma, year. -/
def printTime (st : GoState) : String :=
  hourRepr st ++ ", " ++ codesToMonth st.internalTime.month ++ " "
    ++ toString st.internalTime.day ++ ", " ++ toString st.internalTime.year

/-! ### setTime (main.go lines 77-169) -/

/-- Field names of the setTime loop, in the order of stateNames. -/
inductive Fld where
  | hour
  | day
  | month
  | year
deriving Repr, DecidableEq

/-- Reads the scratch value of one field, modelling stateValues lookup. -/
def TimeRec.get (t : TimeRec) : Fld → Int
  | .hour => t.hour
  | .day => t.day
  | .month => t.month
  | .year => t.year

/-- Writes the scratch value of one field, modelling stateValues update. -/
def TimeRec.set (t : TimeRec) : Fld → Int → TimeRec
  | .hour, v => { t with hour := v }
  | .day, v => { t with day := v }
  | .month, v => { t with month := v }
  | .year, v => { t with year := v }

/-- Display name of a field, as stateNames holds it. -/
def fldName : Fld → String
  | .hour => "Hour"
  | .day => "Day"
  | .month => "Month"
  | .year => "Year"

/-- The four validation failures setTime can report from its token loop. -/
inductive TimeErr where
  | invalidNumber (field got : String)
  | monthRange (n : Int)
  | monthCode (tok : String)
deriving Repr, DecidableEq

/-- Trailing hint appended to every setTime error (main.go line 88). -/
def helpMessage : String := "\n  for detailed usage, enter: settime --help"

/-- Error strings exactly as setTime builds them. -/
def errString : TimeErr → String
  | .invalidNumber f got =>
      "  Error: Expected a number for " ++ f ++ ", got " ++ got ++ helpMessage
  | .monthRange n =>
      "  Error: Expected Month number in range 1-12, got " ++ toString n ++ helpMessage
  | .monthCode tok =>
      "  Error: Expected a valid month code. Got " ++ tok ++ helpMessage

/-- One iteration of the setTime token loop (main.go lines 115-162): wildcard
passes the field through; a leading slash rune makes the token a relative
update added to the scratch value; otherwise non-Month fields parse the token
as an absolute integer, and the Month field parses an integer with the 1-12
range check or falls back to the lowercased month-code lookup. -/
def stepField (vals : TimeRec) (f : Fld) (tok : String) : Except TimeErr TimeRec :=
  if tok = "*" then .ok vals
  else
    match tok.data with
    | '/' :: cs =>
        match parseIntChars cs with
        | none => .error (.invalidNumber (fldName f) (String.mk cs))
        | some n => .ok (vals.set f (vals.get f + n))
    | _ =>
        if f ≠ .month then
          match parseIntChars tok.data with
          | none => .error (.invalidNumber (fldName f) tok)
          | some n => .ok (vals.set f n)
        else
          match parseIntChars tok.data with
          | some n =>
              if n < 1 ∨ 12 < n then .error (.monthRange n)
              else .ok (vals.set f n)
          | none =>
              let lo := toLowerChars tok.data
              if validMonthCodes lo ≠ 0 then .ok (vals.set f (validMonthCodes lo))
              else .error (.monthCode tok)

/-- The setTime token loop over the zipped field-token pairs, threading the
scratch record and aborting on the first failing token. -/
def setTimeLoop (vals : TimeRec) : List (Fld × String) → Except TimeErr TimeRec
  | [] => .ok vals
  | (f, t) :: rest =>
      match stepField vals f t with
      | .error e => .error e
      | .ok v => setTimeLoop v rest

/-- The stateNames order: Hour, Day, Month, Year. -/
def fldOrder : List Fld := [.hour, .day, .month, .year]

/-- Position of each field in the stateNames order. -/
def fldIdx : Fld → Nat
  | .hour => 0
  | .day => 1
  | .month => 2
  | .year => 3

/-- Scratch result of the setTime token loop started from the current stored
record; zipping with fldOrder bounds the loop by min(4, number of tokens) and
silently ignores extra tokens. -/
def setTimeVals (cur : TimeRec) (args : List String) : Except TimeErr TimeRec :=
  setTimeLoop cur (fldOrder.zip args)

/-- The military-mode flag prefix tested on the first token. -/
def militaryPfx : String := "--military="

/-- Usage string stored under the setTime key of usageStrings. -/
def usageSetTime : String := "  usage: settime <HOUR> <DAY> <MONTH> <YEAR>"

/-- Width-2 zero padding used by the Go reference date layout. -/
def pad2 (n : Int) : String :=
  if 0 ≤ n ∧ n < 10 then "0" ++ toString n else toString n

/-- Width-4 zero padding for years in the Go reference date layout. -/
def pad4 (n : Int) : String :=
  if 0 ≤ n ∧ n < 10 then "000" ++ toString n
  else if 0 ≤ n ∧ n < 100 then "00" ++ toString n
  else if 0 ≤ n ∧ n < 1000 then "0" ++ toString n
  else toString n

/-- Go time.DateOnly formatting (layout 2006-01-02) of a record. -/
def dateOnly (t : TimeRec) : String :=
  pad4 t.year ++ "-" ++ pad2 t.month ++ "-" ++ pad2 t.day

/-- Go setTime.  The wall-clock reading time.Now() used by the zero-argument
branch is passed in as the parameter now.  The returned pair is the state of
the package-level variables after the call and the returned string. -/
def setTime (st : GoState) (now : TimeRec) (args : List String) : GoState × String :=
  match args with
  | [] =>
      ({ st with internalTime := now },
       "  set time to " ++ dateOnly now ++ " Hour: " ++ toString now.hour)
  | a0 :: _ =>
      if a0 = "--help" ∨ a0 = "-h" then (st, usageSetTime)
      else if hasPfx militaryPfx.data a0.data then
        match parseBoolChars (a0.data.drop militaryPfx.data.length) with
        | none => (st, "  usage: settime --military=<BOOLEAN VALUE>" ++ helpMessage)
        | some v =>
            ({ st with militaryTime := v },
             if v then "  military time enabled" else "  military time disabled")
      else
        match setTimeVals st.internalTime args with
        | .error e => (st, errString e)
        | .ok v =>
            let st1 := { st with
              internalTime := goDate v.year v.month v.day v.hour }
            (st1, "  set time to: " ++ printTime st1)

/-- Go getTime: print the stored time, no state change. -/
def getTime (st : GoState) : String := printTime st

/-- Confirmation string shared by getLocation and setLocation. -/
def locString (l : Location) : String :=
  "Location: " ++ l.city ++ " " ++ l.region ++ ", " ++ l.country

/-- Go getLocation. -/
def getLocation (st : GoState) : String := locString st.internalLocation

/-! ### setLocation (main.go lines 179-208) -/

/-- Field names of the setLocation loop, in the order of its stateNames. -/
inductive LFld where
  | city
  | region
  | country
deriving Repr, DecidableEq

/-- Reads the scratch value of one location field. -/
def Location.getL (l : Location) : LFld → String
  | .city => l.city
  | .region => l.region
  | .country => l.country

/-- Writes the scratch value of one location field. -/
def Location.setL (l : Location) : LFld → String → Location
  | .city, v => { l with city := v }
  | .region, v => { l with region := v }
  | .country, v => { l with country := v }

/-- The setLocation token loop: wildcard tokens pass the field through, any
other token replaces it. -/
def setLocLoop (vals : Location) : List (LFld × String) → Location
  | [] => vals
  | (f, t) :: rest =>
      setLocLoop (if t = "*" then vals else vals.setL f t) rest

/-- The setLocation field order: City, Region, Country. -/
def lfldOrder : List LFld := [.city, .region, .country]

/-- Position of each location field in its stateNames order. -/
def lfldIdx : LFld → Nat
  | .city => 0
  | .region => 1
  | .country => 2

/-- Go setLocation: with no arguments it copies the City, Region and Country
fields of defaultLocation into internalLocation; otherwise it runs the token
loop on a scratch copy and commits the three fields. -/
def setLocation (st : GoState) (args : List String) : GoState × String :=
  match args with
  | [] =>
      let newLoc := { st.internalLocation with
        city := st.defaultLocation.city,
        region := st.defaultLocation.region,
        country := st.defaultLocation.country }
      ({ st with internalLocation := newLoc }, locString newLoc)
  | _ :: _ =>
      let vals := setLocLoop st.internalLocation (lfldOrder.zip args)
      let newLoc := { st.internalLocation with
        city := vals.city, region := vals.region, country := vals.country }
      ({ st with internalLocation := newLoc }, locString newLoc)

/-- Startup state built by main (lines 260-263): internalTime seeded from the
wall clock, militaryTime false, internalLocation copied from the resolved
default location field by field (its Timezone left at the zero value). -/
def initState (now : TimeRec) (defLoc : Location) : GoState :=
  { internalTime := now
    militaryTime := false
    internalLocation :=
      { country := defLoc.country, region := defLoc.region,
        city := defLoc.city, timezone := "" }
    defaultLocation := defLoc }

/-! ### Sample states shared by concrete witnesses and counterexamples -/

/-- Sample stored state: the record of the spec examples (hour 9, June 15
2024), AM/PM mode, a current location whose timezone field holds the zero
value as main leaves it, and a resolved default location. -/
def sampleState : GoState :=
  { internalTime := { hour := 9, day := 15, month := 6, year := 2024 }
    militaryTime := false
    internalLocation :=
      { country := "France", region := "IDF", city := "Paris", timezone := "" }
    defaultLocation :=
      { country := "US", region := "CA", city := "SF", timezone := "PST" } }

/-- Fixed wall-clock reading used where setTime would call time.Now. -/
def now0 : TimeRec := { hour := 0, day := 1, month := 1, year := 2000 }

/-! ### Helper lemmas -/

/-- The month component produced by the civil-calendar conversion is always
between 1 and 12. -/
theorem civilFromDays_month_bounds (z : Int) :
    1 ≤ (civilFromDays z).2.1 ∧ (civilFromDays z).2.1 ≤ 12 := by
  unfold civilFromDays
  dsimp only
  have hd : Int.fmod (z + 719468) 146097
      = (z + 719468) - 146097 * Int.fdiv (z + 719468) 146097 :=
    Int.fmod_def _ _
  have h0 : 0 ≤ Int.fmod (z + 719468) 146097 := Int.fmod_nonneg' _ (by norm_num)
  have h1 : Int.fmod (z + 719468) 146097 < 146097 := Int.fmod_lt_of_pos _ (by norm_num)
  have hdoe : (z + 719468 - Int.fdiv (z + 719468) 146097 * 146097).toNat ≤ 146096 := by
    omega
  generalize (z + 719468 - Int.fdiv (z + 719468) 146097 * 146097).toNat = a at hdoe ⊢
  split <;> constructor <;> omega

/-- A time.Date commit always stores a month between 1 and 12, whatever the
month argument was. -/
theorem goDate_month_bounds (y m d h : Int) :
    1 ≤ (goDate y m d h).month ∧ (goDate y m d h).month ≤ 12 := by
  unfold goDate
  dsimp only
  exact civilFromDays_month_bounds _

theorem TimeRec.get_set_self (t : TimeRec) (f : Fld) (v : Int) :
    (t.set f v).get f = v := by
  cases f <;> rfl

theorem TimeRec.get_set_ne (t : TimeRec) {f g : Fld} (v : Int) (h : g ≠ f) :
    (t.set f v).get g = t.get g := by
  cases f <;> cases g <;> first | rfl | exact absurd rfl h

/-- A wildcard token leaves the scratch record untouched. -/
theorem stepField_wild (vals : TimeRec) (f : Fld) :
    stepField vals f "*" = .ok vals := by
  simp [stepField]

/-- A successful loop step either left the scratch record alone or wrote the
field it was processing. -/
theorem stepField_ok_shape {vals v : TimeRec} {f : Fld} {tok : String}
    (h : stepField vals f tok = .ok v) : v = vals ∨ ∃ n, v = vals.set f n := by
  unfold stepField at h
  split at h
  · left; injection h with h2; exact h2.symm
  · split at h
    · split at h
      · exact Except.noConfusion h
      · right; injection h with h2; exact ⟨_, h2.symm⟩
    · split at h
      · split at h
        · exact Except.noConfusion h
        · right; injection h with h2; exact ⟨_, h2.symm⟩
      · split at h
        · split at h
          · exact Except.noConfusion h
          · right; injection h with h2; exact ⟨_, h2.symm⟩
        · dsimp only at h
          split at h
          · right; injection h with h2; exact ⟨_, h2.symm⟩
          · exact Except.noConfusion h

/-- A successful loop step never changes any field other than its own. -/
theorem stepField_frame {vals v : TimeRec} {f g : Fld} {tok : String}
    (h : stepField vals f tok = .ok v) (hg : g ≠ f) : v.get g = vals.get g := by
  rcases stepField_ok_shape h with rfl | ⟨n, rfl⟩
  · rfl
  · exact TimeRec.get_set_ne vals n hg

/-- A token whose first rune is the slash adds its parsed remainder to the
scratch value of its field. -/
theorem stepField_slash {tok : String} {cs : List Char} {n : Int}
    (vals : TimeRec) (f : Fld)
    (hd : tok.data = '/' :: cs) (hp : parseIntChars cs = some n) :
    stepField vals f tok = .ok (vals.set f (vals.get f + n)) := by
  have hne : tok ≠ "*" := by
    intro he
    subst he
    have h2 : ['*'] = '/' :: cs := hd
    injection h2 with h3 h4
    exact absurd h3 (by decide)
  simp only [stepField, if_neg hne, hd, hp]

/-- A slash-headed character list never parses as an integer. -/
theorem parseIntChars_slash (cs : List Char) : parseIntChars ('/' :: cs) = none := by
  simp [parseIntChars, digitsVal]

/-- The wildcard token never parses as an integer. -/
theorem parseIntChars_star : parseIntChars "*".data = none := by decide

/-- A month-code lookup on a list whose first character is the slash always
misses (every key starts with a letter). -/
theorem validMonthCodes_head {xs : List Char} (h : xs.head? = some '/') :
    validMonthCodes xs = 0 := by
  have k : ∀ (s : String), s.data.head? ≠ some '/' → xs ≠ s.data := by
    intro s hs hx
    rw [hx] at h
    exact hs h
  unfold validMonthCodes
  rw [if_neg (k "january" (by decide)), if_neg (k "february" (by decide)),
    if_neg (k "march" (by decide)), if_neg (k "april" (by decide)),
    if_neg (k "may" (by decide)), if_neg (k "june" (by decide)),
    if_neg (k "july" (by decide)), if_neg (k "august" (by decide)),
    if_neg (k "september" (by decide)), if_neg (k "october" (by decide)),
    if_neg (k "november" (by decide)), if_neg (k "december" (by decide)),
    if_neg (k "jan" (by decide)), if_neg (k "feb" (by decide)),
    if_neg (k "mar" (by decide)), if_neg (k "apr" (by decide)),
    if_neg (k "jun" (by decide)), if_neg (k "jul" (by decide)),
    if_neg (k "aug" (by decide)), if_neg (k "sep" (by decide)),
    if_neg (k "oct" (by decide)), if_neg (k "nov" (by decide)),
    if_neg (k "dec" (by decide))]

/-- An integer-parsing token updates a non-Month field absolutely. -/
theorem stepField_abs {tok : String} {n : Int} (vals : TimeRec) {f : Fld}
    (hf : f ≠ .month) (hp : parseIntChars tok.data = some n) :
    stepField vals f tok = .ok (vals.set f n) := by
  have hne : tok ≠ "*" := by
    intro he
    rw [he, parseIntChars_star] at hp
    exact Option.noConfusion hp
  unfold stepField
  rw [if_neg hne]
  split
  · rename_i cs heq
    rw [heq, parseIntChars_slash] at hp
    exact Option.noConfusion hp
  · rw [if_pos hf, hp]

/-- An integer-parsing token in range 1-12 sets the Month field absolutely. -/
theorem stepField_month_num {tok : String} {n : Int} (vals : TimeRec)
    (hp : parseIntChars tok.data = some n) (h1 : 1 ≤ n) (h2 : n ≤ 12) :
    stepField vals .month tok = .ok (vals.set .month n) := by
  have hne : tok ≠ "*" := by
    intro he
    rw [he, parseIntChars_star] at hp
    exact Option.noConfusion hp
  unfold stepField
  rw [if_neg hne]
  split
  · rename_i cs heq
    rw [heq, parseIntChars_slash] at hp
    exact Option.noConfusion hp
  · rw [if_neg (by simp : ¬(Fld.month ≠ Fld.month)), hp]
    dsimp only
    rw [if_neg (by omega : ¬(n < 1 ∨ 12 < n))]

/-- An out-of-range integer month token is rejected with the range error. -/
theorem stepField_month_range {tok : String} {n : Int} (vals : TimeRec)
    (hp : parseIntChars tok.data = some n) (hr : n < 1 ∨ 12 < n) :
    stepField vals .month tok = .error (.monthRange n) := by
  have hne : tok ≠ "*" := by
    intro he
    rw [he, parseIntChars_star] at hp
    exact Option.noConfusion hp
  unfold stepField
  rw [if_neg hne]
  split
  · rename_i cs heq
    rw [heq, parseIntChars_slash] at hp
    exact Option.noConfusion hp
  · rw [if_neg (by simp : ¬(Fld.month ≠ Fld.month)), hp]
    dsimp only
    rw [if_pos hr]

/-- A non-numeric token whose lowercasing hits the month-code table sets the
Month field to the code found. -/
theorem stepField_month_code {tok : String} (vals : TimeRec)
    (hpn : parseIntChars tok.data = none)
    (hlk : validMonthCodes (toLowerChars tok.data) ≠ 0)
    (hne : tok ≠ "*") :
    stepField vals .month tok
      = .ok (vals.set .month (validMonthCodes (toLowerChars tok.data))) := by
  unfold stepField
  rw [if_neg hne]
  split
  · rename_i cs heq
    have hh : (toLowerChars tok.data).head? = some '/' := by
      rw [heq]
      rfl
    exact absurd (validMonthCodes_head hh) hlk
  · rw [if_neg (by simp : ¬(Fld.month ≠ Fld.month)), hpn]
    dsimp only
    rw [if_pos hlk]

/-- The only monthRange error a loop step can produce comes from the Month
position with a token that parsed as exactly that integer. -/
theorem stepField_monthRange_inv {vals : TimeRec} {f : Fld} {tok : String} {m : Int}
    (h : stepField vals f tok = .error (.monthRange m)) :
    f = .month ∧ parseIntChars tok.data = some m := by
  unfold stepField at h
  split at h
  · exact Except.noConfusion h
  · split at h
    · split at h
      · injection h with h2
        exact TimeErr.noConfusion h2
      · exact Except.noConfusion h
    · split at h
      · split at h
        · injection h with h2
          exact TimeErr.noConfusion h2
        · exact Except.noConfusion h
      · rename_i hf
        split at h
        · rename_i n heq
          split at h
          · injection h with h2
            injection h2 with h3
            exact ⟨not_not.mp hf, by rw [heq, h3]⟩
          · exact Except.noConfusion h
        · dsimp only at h
          split at h
          · exact Except.noConfusion h
          · injection h with h2
            exact TimeErr.noConfusion h2

/-- A field whose every occurrence in the pair list is the wildcard token
keeps its scratch value through the whole loop. -/
theorem setTimeLoop_frame {pairs : List (Fld × String)} :
    ∀ {vals v : TimeRec} {f : Fld},
    setTimeLoop vals pairs = .ok v → (∀ t, (f, t) ∈ pairs → t = "*") →
    v.get f = vals.get f := by
  induction pairs with
  | nil =>
      intro vals v f h _
      injection h with h2
      rw [← h2]
  | cons p rest ih =>
      intro vals v f h hw
      obtain ⟨g, t⟩ := p
      simp only [setTimeLoop] at h
      split at h
      · exact Except.noConfusion h
      · rename_i w hstep
        have hv : v.get f = w.get f :=
          ih h (fun t' ht' => hw t' (List.mem_cons_of_mem _ ht'))
        by_cases hgf : g = f
        · subst hgf
          have ht : t = "*" := hw t (List.mem_cons_self _ _)
          subst ht
          rw [stepField_wild] at hstep
          injection hstep with h2
          rw [hv, ← h2]
        · rw [hv, stepField_frame hstep (fun he => hgf he.symm)]

/-- A field whose single occurrence in the pair list carries a slash-relative
token ends the loop with its old value plus the parsed remainder, provided the
loop succeeds. -/
theorem setTimeLoop_slash (p1 : List (Fld × String)) :
    ∀ (p2 : List (Fld × String)) {vals v : TimeRec} {f : Fld} {tok : String}
      {cs : List Char} {n : Int},
    setTimeLoop vals (p1 ++ (f, tok) :: p2) = .ok v →
    (∀ t, (f, t) ∈ p1 → False) → (∀ t, (f, t) ∈ p2 → False) →
    tok.data = '/' :: cs → parseIntChars cs = some n →
    v.get f = vals.get f + n := by
  induction p1 with
  | nil =>
      intro p2 vals v f tok cs n h _ hp2 hd hp
      simp only [List.nil_append, setTimeLoop, stepField_slash vals f hd hp] at h
      have hfr := setTimeLoop_frame h (fun t ht => (hp2 t ht).elim)
      rw [hfr, TimeRec.get_set_self]
  | cons p rest ih =>
      intro p2 vals v f tok cs n h hp1 hp2 hd hp
      obtain ⟨g, t⟩ := p
      simp only [List.cons_append, setTimeLoop] at h
      split at h
      · exact Except.noConfusion h
      · rename_i w hstep
        have hgf : ¬ g = f := fun he =>
          hp1 t (by rw [← he]; exact List.mem_cons_self _ _)
        have hv := ih p2 h (fun t' ht' => hp1 t' (List.mem_cons_of_mem _ ht')) hp2 hd hp
        rw [hv, stepField_frame hstep (fun he => hgf he.symm)]

/-- Every pair the zipped loop list holds for a field carries the token at
that field's argument position. -/
theorem zip_fld_get {args : List String} {f : Fld} {t : String}
    (hmem : (f, t) ∈ fldOrder.zip args) : args.get? (fldIdx f) = some t := by
  match args with
  | [] => simp [fldOrder] at hmem
  | [a] =>
      simp only [fldOrder, List.zip_cons_cons, List.zip_nil_right, List.mem_cons,
        List.not_mem_nil, or_false] at hmem
      injection hmem with h1 h2
      subst h1
      subst h2
      rfl
  | [a, b] =>
      simp only [fldOrder, List.zip_cons_cons, List.zip_nil_right, List.mem_cons,
        List.not_mem_nil, or_false] at hmem
      rcases hmem with h | h <;>
        (injection h with h1 h2; subst h1; subst h2; rfl)
  | [a, b, c] =>
      simp only [fldOrder, List.zip_cons_cons, List.zip_nil_right, List.mem_cons,
        List.not_mem_nil, or_false] at hmem
      rcases hmem with h | h | h <;>
        (injection h with h1 h2; subst h1; subst h2; rfl)
  | a :: b :: c :: d :: r =>
      simp only [fldOrder, List.zip_cons_cons, List.zip_nil_left, List.mem_cons,
        List.not_mem_nil, or_false] at hmem
      rcases hmem with h | h | h | h <;>
        (injection h with h1 h2; subst h1; subst h2; rfl)

/-- The Hour field never occurs in the zipped tail after position 0. -/
theorem hour_not_in_tail {rest : List String} {t : String}
    (h : (Fld.hour, t) ∈ [Fld.day, Fld.month, Fld.year].zip rest) : False := by
  match rest with
  | [] => simp at h
  | [b] => simp at h
  | [b, c] => simp at h
  | b :: c :: d :: r => simp at h

/-- The Day field never occurs in the zipped tail after position 1. -/
theorem day_not_in_tail {rest : List String} {t : String}
    (h : (Fld.day, t) ∈ [Fld.month, Fld.year].zip rest) : False := by
  match rest with
  | [] => simp at h
  | [c] => simp at h
  | c :: d :: r => simp at h

/-- The Month field never occurs in the zipped tail after position 2. -/
theorem month_not_in_tail {rest : List String} {t : String}
    (h : (Fld.month, t) ∈ [Fld.year].zip rest) : False := by
  match rest with
  | [] => simp at h
  | d :: r => simp at h

/-- Relative-update effect of a slash token at the Hour position. -/
theorem setTimeVals_slash_hour {cur : TimeRec} {a : String} {rest : List String}
    {v : TimeRec} {cs : List Char} {n : Int}
    (h : setTimeVals cur (a :: rest) = .ok v)
    (hd : a.data = '/' :: cs) (hp : parseIntChars cs = some n) :
    v.get .hour = cur.get .hour + n :=
  setTimeLoop_slash [] ([Fld.day, Fld.month, Fld.year].zip rest) h
    (fun t ht => List.not_mem_nil _ ht) (fun t ht => hour_not_in_tail ht) hd hp

/-- Relative-update effect of a slash token at the Day position. -/
theorem setTimeVals_slash_day {cur : TimeRec} {a b : String} {rest : List String}
    {v : TimeRec} {cs : List Char} {n : Int}
    (h : setTimeVals cur (a :: b :: rest) = .ok v)
    (hd : b.data = '/' :: cs) (hp : parseIntChars cs = some n) :
    v.get .day = cur.get .day + n :=
  setTimeLoop_slash [(Fld.hour, a)] ([Fld.month, Fld.year].zip rest) h
    (fun t ht => by simp at ht) (fun t ht => day_not_in_tail ht) hd hp

/-- Relative-update effect of a slash token at the Month position. -/
theorem setTimeVals_slash_month {cur : TimeRec} {a b c : String} {rest : List String}
    {v : TimeRec} {cs : List Char} {n : Int}
    (h : setTimeVals cur (a :: b :: c :: rest) = .ok v)
    (hd : c.data = '/' :: cs) (hp : parseIntChars cs = some n) :
    v.get .month = cur.get .month + n :=
  setTimeLoop_slash [(Fld.hour, a), (Fld.day, b)] ([Fld.year].zip rest) h
    (fun t ht => by simp at ht) (fun t ht => month_not_in_tail ht) hd hp

/-- Relative-update effect of a slash token at the Year position. -/
theorem setTimeVals_slash_year {cur : TimeRec} {a b c d : String} {rest : List String}
    {v : TimeRec} {cs : List Char} {n : Int}
    (h : setTimeVals cur (a :: b :: c :: d :: rest) = .ok v)
    (hd : d.data = '/' :: cs) (hp : parseIntChars cs = some n) :
    v.get .year = cur.get .year + n :=
  setTimeLoop_slash [(Fld.hour, a), (Fld.day, b), (Fld.month, c)] [] h
    (fun t ht => by simp at ht) (fun t ht => List.not_mem_nil _ ht) hd hp

/-- A failing loop pinpoints a failing step on one of its pairs. -/
theorem setTimeLoop_error {pairs : List (Fld × String)} :
    ∀ {vals : TimeRec} {e : TimeErr},
    setTimeLoop vals pairs = .error e →
    ∃ w f t, (f, t) ∈ pairs ∧ stepField w f t = .error e := by
  induction pairs with
  | nil =>
      intro vals e h
      exact Except.noConfusion h
  | cons p rest ih =>
      intro vals e h
      obtain ⟨g, t⟩ := p
      simp only [setTimeLoop] at h
      split at h
      · rename_i e' hstep
        injection h with h2
        exact ⟨vals, g, t, List.mem_cons_self _ _, by rw [hstep, h2]⟩
      · rename_i w hstep
        obtain ⟨w', f', t', hmem, hs⟩ := ih h
        exact ⟨w', f', t', List.mem_cons_of_mem _ hmem, hs⟩

theorem Location.getL_setL_ne (l : Location) {f g : LFld} (v : String) (h : g ≠ f) :
    (l.setL f v).getL g = l.getL g := by
  cases f <;> cases g <;> first | rfl | exact absurd rfl h

/-- A location field whose every occurrence in the pair list is the wildcard
token keeps its value through the whole setLocation loop. -/
theorem setLocLoop_frame {pairs : List (LFld × String)} :
    ∀ {vals : Location} {f : LFld},
    (∀ t, (f, t) ∈ pairs → t = "*") →
    (setLocLoop vals pairs).getL f = vals.getL f := by
  induction pairs with
  | nil => intro vals f _; rfl
  | cons p rest ih =>
      intro vals f hw
      obtain ⟨g, t⟩ := p
      simp only [setLocLoop]
      by_cases hgt : t = "*"
      · subst hgt
        rw [if_pos rfl]
        exact ih (fun t' ht' => hw t' (List.mem_cons_of_mem _ ht'))
      · rw [if_neg hgt]
        have hgf : g ≠ f := fun he =>
          hgt (hw t (by rw [← he]; exact List.mem_cons_self _ _))
        rw [ih (fun t' ht' => hw t' (List.mem_cons_of_mem _ ht')),
          Location.getL_setL_ne _ _ (fun he => hgf he.symm)]

/-- Every pair the zipped setLocation loop list holds for a field carries the
token at that field's argument position. -/
theorem zip_lfld_get {args : List String} {f : LFld} {t : String}
    (hmem : (f, t) ∈ lfldOrder.zip args) : args.get? (lfldIdx f) = some t := by
  match args with
  | [] => simp [lfldOrder] at hmem
  | [a] =>
      simp only [lfldOrder, List.zip_cons_cons, List.zip_nil_right, List.mem_cons,
        List.not_mem_nil, or_false] at hmem
      injection hmem with h1 h2
      subst h1
      subst h2
      rfl
  | [a, b] =>
      simp only [lfldOrder, List.zip_cons_cons, List.zip_nil_right, List.mem_cons,
        List.not_mem_nil, or_false] at hmem
      rcases hmem with h | h <;>
        (injection h with h1 h2; subst h1; subst h2; rfl)
  | a :: b :: c :: r =>
      simp only [lfldOrder, List.zip_cons_cons, List.zip_nil_left, List.mem_cons,
        List.not_mem_nil, or_false] at hmem
      rcases hmem with h | h | h <;>
        (injection h with h1 h2; subst h1; subst h2; rfl)

/-- The ASCII prefix test accepts a list built by appending to the prefix. -/
theorem hasPfx_self_append : ∀ (p x : List Char), hasPfx p (p ++ x) = true
  | [], _ => rfl
  | c :: p, x => by simp only [List.cons_append, hasPfx, if_pos rfl]; exact hasPfx_self_append p x

/-! ### Sanity example: the normalization matches the Go time documentation -/

/-- Sanity check mirroring the example in the Go time.Date documentation:
October 32 converts to November 1. -/
theorem goDate_go_doc_example :
    goDate 2023 10 32 0 = { hour := 0, day := 1, month := 11, year := 2023 } := rfl

/-! ### Claim theorems -/

/-- C1: for every call to setTime with a non-empty, non-flag argument list,
if any token fails validation, setTime returns the corresponding error string
and the whole state, in particular the stored TimeRecord, is exactly what it
was before the call: internalTime is only assigned after the loop finishes,
so no field is partially committed. -/
theorem setTime_error_no_commit (st : GoState) (now : TimeRec)
    (a0 : String) (rest : List String) (e : TimeErr)
    (hh : ¬(a0 = "--help" ∨ a0 = "-h"))
    (hm : hasPfx militaryPfx.data a0.data = false)
    (he : setTimeVals st.internalTime (a0 :: rest) = .error e) :
    setTime st now (a0 :: rest) = (st, errString e) := by
  simp only [setTime]
  rw [if_neg hh,
    if_neg (show ¬(hasPfx militaryPfx.data a0.data = true) by rw [hm]; decide),
    he]

/-- C1 witness: the spec example badnum input fails with the Hour error and
leaves the state untouched. -/
theorem setTime_error_no_commit_w :
    setTime sampleState now0 ["badnum", "1", "1", "2024"]
      = (sampleState, errString (.invalidNumber "Hour" "badnum")) :=
  setTime_error_no_commit sampleState now0 "badnum" ["1", "1", "2024"]
    (.invalidNumber "Hour" "badnum") (by decide) (by decide) (by rfl)

/-- C7 (amended): a zero-argument setLocation call copies the City, Region and
Country fields of the stored default LocationRecord into the current record —
the unused Timezone field is left untouched — and returns the Location
confirmation string built from those three fields. -/
theorem setLocation_reset (st : GoState) :
    setLocation st []
      = ({ st with internalLocation :=
            { country := st.defaultLocation.country,
              region := st.defaultLocation.region,
              city := st.defaultLocation.city,
              timezone := st.internalLocation.timezone } },
         "Location: " ++ st.defaultLocation.city ++ " " ++ st.defaultLocation.region
           ++ ", " ++ st.defaultLocation.country) := rfl

/-- C7 counterexample: from the startup state, whose current Timezone is the
empty string, a zero-argument setLocation does not restore the current record
to exactly the default record when the resolved default carries a non-empty
timezone: the Timezone field is not copied. -/
theorem setLocation_reset_cex :
    (setLocation (initState now0
        { country := "US", region := "CA", city := "SF", timezone := "PST" })
        []).1.internalLocation
      ≠ (initState now0
        { country := "US", region := "CA", city := "SF", timezone := "PST" }).defaultLocation
    ∧ (setLocation (initState now0
        { country := "US", region := "CA", city := "SF", timezone := "PST" })
        []).1.internalLocation.city = "SF"
    ∧ (setLocation (initState now0
        { country := "US", region := "CA", city := "SF", timezone := "PST" })
        []).1.internalLocation.timezone = "" := by
  refine ⟨by decide, rfl, rfl⟩

/-- C9: a first token of the form dash-dash-military-equals with a parseable
boolean sets only the MilitaryTimeFlag and returns the matching confirmation;
repeating the identical call leaves the same flag value and returns the same
string; the stored TimeRecord is never touched; an unparseable boolean yields
the usage error and changes nothing. -/
theorem setTime_military_flag (st : GoState) (now : TimeRec) (s : String)
    (rest : List String) :
    (∀ b, parseBoolChars s.data = some b →
      setTime st now (("--military=" ++ s) :: rest)
        = ({ st with militaryTime := b },
           if b then "  military time enabled" else "  military time disabled")
      ∧ (setTime st now (("--military=" ++ s) :: rest)).1.internalTime = st.internalTime
      ∧ setTime (setTime st now (("--military=" ++ s) :: rest)).1 now
          (("--military=" ++ s) :: rest)
          = setTime st now (("--military=" ++ s) :: rest))
    ∧ (parseBoolChars s.data = none →
      setTime st now (("--military=" ++ s) :: rest)
        = (st, "  usage: settime --military=<BOOLEAN VALUE>" ++ helpMessage)) := by
  have hne : ¬(("--military=" ++ s) = "--help" ∨ ("--military=" ++ s) = "-h") := by
    have hml : ("--military=".data).length = 11 := rfl
    have hh1 : ("--help".data).length = 6 := rfl
    have hh2 : ("-h".data).length = 2 := rfl
    rintro (h | h)
    · have hl := congrArg (fun q : String => q.data.length) h
      simp only [String.data_append, List.length_append, List.length_cons,
        List.length_nil] at hl
      omega
    · have hl := congrArg (fun q : String => q.data.length) h
      simp only [String.data_append, List.length_append, List.length_cons,
        List.length_nil] at hl
      omega
  have hpfx : hasPfx militaryPfx.data ("--military=" ++ s).data = true := by
    rw [String.data_append]
    exact hasPfx_self_append _ _
  have hdrop : ("--military=" ++ s).data.drop militaryPfx.data.length = s.data := by
    rw [String.data_append]
    exact List.drop_left' rfl
  constructor
  · intro b hb
    have key : ∀ (u : GoState), setTime u now (("--military=" ++ s) :: rest)
        = ({ u with militaryTime := b },
           if b then "  military time enabled" else "  military time disabled") := by
      intro u
      simp only [setTime]
      rw [if_neg hne, if_pos hpfx, hdrop, hb]
    refine ⟨key st, by rw [key st], ?_⟩
    rw [key st]
    dsimp only
    rw [key { st with militaryTime := b }]
  · intro hb
    simp only [setTime]
    rw [if_neg hne, if_pos hpfx, hdrop, hb]

/-- C9 witness: the true flag at the sample state enables military time and
touches nothing else, and a bogus boolean is rejected without a change. -/
theorem setTime_military_flag_w :
    setTime sampleState now0 ["--military=true"]
      = ({ sampleState with militaryTime := true }, "  military time enabled")
    ∧ setTime sampleState now0 ["--military=bogus"]
      = (sampleState, "  usage: settime --military=<BOOLEAN VALUE>" ++ helpMessage) := by
  constructor
  · have h := ((setTime_military_flag sampleState now0 "true" []).1 true rfl).1
    exact h
  · exact (setTime_military_flag sampleState now0 "bogus" []).2 rfl

/-- C5 (amended): in non-military mode a stored hour above 12 renders as the
hour minus 12 followed by PM and a stored hour at most 12 renders as the hour
followed by AM — so hour 0 renders 0AM, hour 13 renders 1PM, and hour 12
renders 12AM, not 12PM; military mode renders the hour followed by a colon
and two zeros; the full output is the hour representation, a comma, the month
name, the day and the year. -/
theorem printTime_format (st : GoState) :
    (st.militaryTime = false → 0 ≤ st.internalTime.hour → st.internalTime.hour ≤ 23 →
      ((12 < st.internalTime.hour →
          hourRepr st = toString (st.internalTime.hour - 12) ++ "PM")
        ∧ (st.internalTime.hour ≤ 12 →
          hourRepr st = toString st.internalTime.hour ++ "AM")))
    ∧ (st.militaryTime = true → hourRepr st = toString st.internalTime.hour ++ ":00")
    ∧ printTime st = hourRepr st ++ ", " ++ codesToMonth st.internalTime.month ++ " "
        ++ toString st.internalTime.day ++ ", " ++ toString st.internalTime.year := by
  refine ⟨?_, ?_, rfl⟩
  · intro hm h0 h23
    constructor
    · intro h12
      unfold hourRepr
      rw [if_pos (show (!st.militaryTime) = true by rw [hm]; rfl), if_pos h12]
      have hmod : st.internalTime.hour % 12 = st.internalTime.hour - 12 := by omega
      rw [hmod]
    · intro h12
      unfold hourRepr
      rw [if_pos (show (!st.militaryTime) = true by rw [hm]; rfl),
        if_neg (show ¬(12 < st.internalTime.hour) by omega)]
  · intro hm
    unfold hourRepr
    rw [if_neg (show ¬((!st.militaryTime) = true) by rw [hm]; decide)]

/-- C5 witness: hour 13 in AM/PM mode renders as 1PM through the theorem. -/
theorem printTime_format_w :
    hourRepr { sampleState with
        internalTime := { hour := 13, day := 15, month := 6, year := 2024 } }
      = toString ((13 : Int) - 12) ++ "PM" :=
  ((printTime_format _).1 rfl (by decide) (by decide)).1 (by decide)

/-- C5 counterexample: with a stored hour of 12 in non-military mode the
program prints 12AM, not the 12PM the claim asserts. -/
theorem printTime_hour12_cex :
    printTime { sampleState with
        internalTime := { hour := 12, day := 15, month := 6, year := 2024 } }
      = "12AM, June 15, 2024"
    ∧ printTime { sampleState with
        internalTime := { hour := 12, day := 15, month := 6, year := 2024 } }
      ≠ "12PM, June 15, 2024" := by
  exact ⟨rfl, by decide⟩

/-- C8: month-name parsing in setTime is case-insensitive and accepts full
names and the listed abbreviations: any non-numeric token whose lowercasing
hits the table commits the code found there, every listed lowercase key maps
to its month number, and the tokens Jan, JAN and jan all resolve to 1. -/
theorem month_lookup_case_insensitive :
    (∀ s : String, ∀ st : TimeRec,
      validMonthCodes (toLowerChars s.data) ≠ 0 →
      parseIntChars s.data = none → s ≠ "*" →
      setTimeVals st ["*", "*", s, "*"]
        = .ok { st with month := validMonthCodes (toLowerChars s.data) })
    ∧ (validMonthCodes (toLowerChars "Jan".data) = 1
       ∧ validMonthCodes (toLowerChars "JAN".data) = 1
       ∧ validMonthCodes (toLowerChars "jan".data) = 1)
    ∧ (validMonthCodes "january".data = 1 ∧ validMonthCodes "february".data = 2
       ∧ validMonthCodes "march".data = 3 ∧ validMonthCodes "april".data = 4
       ∧ validMonthCodes "may".data = 5 ∧ validMonthCodes "june".data = 6
       ∧ validMonthCodes "july".data = 7 ∧ validMonthCodes "august".data = 8
       ∧ validMonthCodes "september".data = 9 ∧ validMonthCodes "october".data = 10
       ∧ validMonthCodes "november".data = 11 ∧ validMonthCodes "december".data = 12
       ∧ validMonthCodes "jan".data = 1 ∧ validMonthCodes "feb".data = 2
       ∧ validMonthCodes "mar".data = 3 ∧ validMonthCodes "apr".data = 4
       ∧ validMonthCodes "jun".data = 6 ∧ validMonthCodes "jul".data = 7
       ∧ validMonthCodes "aug".data = 8 ∧ validMonthCodes "sep".data = 9
       ∧ validMonthCodes "oct".data = 10 ∧ validMonthCodes "nov".data = 11
       ∧ validMonthCodes "dec".data = 12) := by
  refine ⟨?_, by decide, by decide⟩
  intro s st hlk hpn hne
  simp only [setTimeVals, fldOrder, List.zip_cons_cons, List.zip_nil_right, setTimeLoop,
    stepField_wild, stepField_month_code st hpn hlk hne, TimeRec.set]

/-- C8 witness: the upper-case token JAN resolves to month 1 through the
general theorem. -/
theorem month_lookup_case_insensitive_w :
    setTimeVals sampleState.internalTime ["*", "*", "JAN", "*"]
      = .ok { sampleState.internalTime with month := 1 } := by
  have h := (month_lookup_case_insensitive).1 "JAN" sampleState.internalTime
    (by decide) (by decide) (by decide)
  rw [show validMonthCodes (toLowerChars "JAN".data) = 1 from by decide] at h
  exact h

/-- C3 (amended): a wildcard token leaves its field unchanged in the stored
LocationRecord for setLocation, and in the committed pre-normalization values
for setTime; the stored TimeRecord is the time.Date calendar normalization of
those committed values, which can shift a wildcarded field. -/
theorem wildcard_frame (st : GoState) (args : List String) :
    (args ≠ [] →
      ((args.get? 0 = some "*" →
         (setLocation st args).1.internalLocation.city = st.internalLocation.city)
       ∧ (args.get? 1 = some "*" →
         (setLocation st args).1.internalLocation.region = st.internalLocation.region)
       ∧ (args.get? 2 = some "*" →
         (setLocation st args).1.internalLocation.country = st.internalLocation.country)))
    ∧ (∀ v : TimeRec, setTimeVals st.internalTime args = .ok v →
      ((args.get? 0 = some "*" → v.hour = st.internalTime.hour)
       ∧ (args.get? 1 = some "*" → v.day = st.internalTime.day)
       ∧ (args.get? 2 = some "*" → v.month = st.internalTime.month)
       ∧ (args.get? 3 = some "*" → v.year = st.internalTime.year)))
    ∧ (∀ (now : TimeRec) (a0 : String) (rest : List String) (v : TimeRec),
        args = a0 :: rest → ¬(a0 = "--help" ∨ a0 = "-h") →
        hasPfx militaryPfx.data a0.data = false →
        setTimeVals st.internalTime args = .ok v →
        (setTime st now args).1.internalTime = goDate v.year v.month v.day v.hour) := by
  refine ⟨?_, ?_, ?_⟩
  · intro hne
    cases args with
    | nil => exact absurd rfl hne
    | cons a rest =>
        refine ⟨?_, ?_, ?_⟩ <;> intro hget
        · have hfr : (setLocLoop st.internalLocation (lfldOrder.zip (a :: rest))).getL .city
              = st.internalLocation.getL .city :=
            setLocLoop_frame
              (fun t ht => Option.some.inj ((zip_lfld_get ht).symm.trans hget))
          exact hfr
        · have hfr : (setLocLoop st.internalLocation (lfldOrder.zip (a :: rest))).getL .region
              = st.internalLocation.getL .region :=
            setLocLoop_frame
              (fun t ht => Option.some.inj ((zip_lfld_get ht).symm.trans hget))
          exact hfr
        · have hfr : (setLocLoop st.internalLocation (lfldOrder.zip (a :: rest))).getL .country
              = st.internalLocation.getL .country :=
            setLocLoop_frame
              (fun t ht => Option.some.inj ((zip_lfld_get ht).symm.trans hget))
          exact hfr
  · intro v h
    refine ⟨?_, ?_, ?_, ?_⟩ <;> intro hget
    · exact (show v.get .hour = st.internalTime.get .hour from
        setTimeLoop_frame h
          (fun t ht => Option.some.inj ((zip_fld_get ht).symm.trans hget)))
    · exact (show v.get .day = st.internalTime.get .day from
        setTimeLoop_frame h
          (fun t ht => Option.some.inj ((zip_fld_get ht).symm.trans hget)))
    · exact (show v.get .month = st.internalTime.get .month from
        setTimeLoop_frame h
          (fun t ht => Option.some.inj ((zip_fld_get ht).symm.trans hget)))
    · exact (show v.get .year = st.internalTime.get .year from
        setTimeLoop_frame h
          (fun t ht => Option.some.inj ((zip_fld_get ht).symm.trans hget)))
  · intro now a0 rest v hargs hh hm hok
    subst hargs
    simp only [setTime]
    rw [if_neg hh,
      if_neg (show ¬(hasPfx militaryPfx.data a0.data = true) by rw [hm]; decide),
      hok]

/-- C3 witness: a wildcard in the city position leaves Paris in place while
the country token replaces France with Canada. -/
theorem wildcard_frame_w :
    (setLocation sampleState ["*", "*", "Canada"]).1.internalLocation.city
      = sampleState.internalLocation.city
    ∧ (setLocation sampleState ["*", "*", "Canada"]).1.internalLocation.country
      = "Canada" :=
  ⟨((wildcard_frame sampleState ["*", "*", "Canada"]).1 (by decide)).1 rfl, rfl⟩

/-- C3 counterexample: with the stored record at June 15 2024 hour 9, the
tokens star, 40, star, star keep the month token a wildcard, yet the stored
month after the call is July: time.Date normalized June 40 to July 10. -/
theorem wildcard_frame_cex :
    (setTime sampleState now0 ["*", "40", "*", "*"]).1.internalTime.month = 7
    ∧ sampleState.internalTime.month = 6
    ∧ (setTime sampleState now0 ["*", "40", "*", "*"]).2
        = "  set time to: 9AM, July 10, 2024" :=
  ⟨rfl, rfl, rfl⟩

/-- C6 (amended): on a successful setTime call, a slash-relative token adds
its parsed remainder to the pre-call value of its field in the committed
pre-normalization values; the stored field is the time.Date calendar
normalization of that sum, which can differ from the sum itself. -/
theorem relative_update_adds (st : TimeRec) (args : List String) (v : TimeRec)
    (h : setTimeVals st args = .ok v) :
    (∀ tok cs n, args.get? 0 = some tok → tok.data = '/' :: cs →
        parseIntChars cs = some n → v.hour = st.hour + n)
    ∧ (∀ tok cs n, args.get? 1 = some tok → tok.data = '/' :: cs →
        parseIntChars cs = some n → v.day = st.day + n)
    ∧ (∀ tok cs n, args.get? 2 = some tok → tok.data = '/' :: cs →
        parseIntChars cs = some n → v.month = st.month + n)
    ∧ (∀ tok cs n, args.get? 3 = some tok → tok.data = '/' :: cs →
        parseIntChars cs = some n → v.year = st.year + n) := by
  refine ⟨?_, ?_, ?_, ?_⟩ <;> intro tok cs n hget hd hp
  · cases args with
    | nil => exact Option.noConfusion hget
    | cons a rest =>
        have ha : a = tok := Option.some.inj hget
        subst ha
        exact setTimeVals_slash_hour h hd hp
  · cases args with
    | nil => exact Option.noConfusion hget
    | cons a rest =>
        cases rest with
        | nil => exact Option.noConfusion hget
        | cons b rest2 =>
            have hb : b = tok := Option.some.inj hget
            subst hb
            exact setTimeVals_slash_day h hd hp
  · cases args with
    | nil => exact Option.noConfusion hget
    | cons a rest =>
        cases rest with
        | nil => exact Option.noConfusion hget
        | cons b rest2 =>
            cases rest2 with
            | nil => exact Option.noConfusion hget
            | cons c rest3 =>
                have hc : c = tok := Option.some.inj hget
                subst hc
                exact setTimeVals_slash_month h hd hp
  · cases args with
    | nil => exact Option.noConfusion hget
    | cons a rest =>
        cases rest with
        | nil => exact Option.noConfusion hget
        | cons b rest2 =>
            cases rest2 with
            | nil => exact Option.noConfusion hget
            | cons c rest3 =>
                cases rest3 with
                | nil => exact Option.noConfusion hget
                | cons d rest4 =>
                    have hd4 : d = tok := Option.some.inj hget
                    subst hd4
                    exact setTimeVals_slash_year h hd hp

/-- C6 witness: a slash 20 hour token adds 20 to the pre-call hour 9 in the
committed values. -/
theorem relative_update_adds_w :
    ({ hour := 29, day := 15, month := 6, year := 2024 } : TimeRec).hour
      = sampleState.internalTime.hour + 20 :=
  (relative_update_adds sampleState.internalTime ["/20", "*", "*", "*"]
      { hour := 29, day := 15, month := 6, year := 2024 } (by rfl)).1
    "/20" "20".data 20 rfl rfl rfl

/-- C6 counterexample: with stored hour 9, the slash 20 token commits and the
stored hour afterwards is 5 of the next day, not the sum 29: the sum is
normalized by time.Date. -/
theorem relative_update_adds_cex :
    (setTime sampleState now0 ["/20", "*", "*", "*"]).1.internalTime.hour = 5
    ∧ (setTime sampleState now0 ["/20", "*", "*", "*"]).1.internalTime.day = 16
    ∧ sampleState.internalTime.hour + 20 = 29
    ∧ (5 : Int) ≠ 29 :=
  ⟨rfl, rfl, rfl, by decide⟩

/-- C10: a slash-relative month token whose remainder parses as an integer is
never subjected to the 1-12 range check: no such call can return the month
range error, and with wildcards elsewhere the call succeeds outright, the
committed month being the unchecked sum. -/
theorem relative_month_no_range_check :
    (∀ (st : TimeRec) (args : List String) (tok : String) (cs : List Char) (n m : Int),
      args.get? 2 = some tok → tok.data = '/' :: cs → parseIntChars cs = some n →
      setTimeVals st args ≠ .error (.monthRange m))
    ∧ (∀ (st : TimeRec) (tok : String) (cs : List Char) (n : Int),
      tok.data = '/' :: cs → parseIntChars cs = some n →
      setTimeVals st ["*", "*", tok, "*"] = .ok { st with month := st.month + n }) := by
  constructor
  · intro st args tok cs n m hget hd hp he
    obtain ⟨w, f, t, hmem, hs⟩ := setTimeLoop_error he
    obtain ⟨hf, hparse⟩ := stepField_monthRange_inv hs
    subst hf
    have hidx := zip_fld_get hmem
    have ht : t = tok := Option.some.inj (hidx.symm.trans hget)
    subst ht
    rw [hd, parseIntChars_slash] at hparse
    exact Option.noConfusion hparse
  · intro st tok cs n hd hp
    simp only [setTimeVals, fldOrder, List.zip_cons_cons, List.zip_nil_right, setTimeLoop,
      stepField_wild, stepField_slash st Fld.month hd hp, TimeRec.set, TimeRec.get]

/-- C10 witness: from month 6, the slash 100 month token commits the sum 106
without any error. -/
theorem relative_month_no_range_check_w :
    setTimeVals sampleState.internalTime ["*", "*", "/100", "*"]
      = .ok { sampleState.internalTime with
          month := sampleState.internalTime.month + 100 } :=
  (relative_month_no_range_check).2 sampleState.internalTime "/100" "100".data 100
    rfl rfl

/-- C4 (amended): for a 4-token absolute time input whose tokens all parse as
integers with the month in 1-12, the committed pre-normalization values equal
the parsed integers exactly; the stored record is the time.Date calendar
normalization of those values, which equals them whenever they already form a
valid calendar date-time, as in the spec example with tokens 14, star, dec,
2030 against hour 9, June 15 2024. -/
theorem absolute_set_exact :
    (∀ (st : TimeRec) (a b c d : String) (na nb nc nd : Int),
      parseIntChars a.data = some na → parseIntChars b.data = some nb →
      parseIntChars c.data = some nc → parseIntChars d.data = some nd →
      1 ≤ nc → nc ≤ 12 →
      setTimeVals st [a, b, c, d]
        = .ok { hour := na, day := nb, month := nc, year := nd })
    ∧ (setTime sampleState now0 ["14", "*", "dec", "2030"]).1.internalTime
        = { hour := 14, day := 15, month := 12, year := 2030 } := by
  constructor
  · intro st a b c d na nb nc nd ha hb hc hd h1 h12
    have e1 := stepField_abs st (show Fld.hour ≠ .month by decide) ha
    have e2 := stepField_abs (st.set .hour na) (show Fld.day ≠ .month by decide) hb
    have e3 := stepField_month_num ((st.set .hour na).set .day nb) hc h1 h12
    have e4 := stepField_abs (((st.set .hour na).set .day nb).set .month nc)
      (show Fld.year ≠ .month by decide) hd
    simp only [setTimeVals, fldOrder, List.zip_cons_cons, List.zip_nil_right,
      setTimeLoop, e1, e2, e3, e4]
    rfl
  · rfl

/-- C4 witness: the four numeric tokens 14, 15, 12, 2030 commit exactly those
integers. -/
theorem absolute_set_exact_w :
    setTimeVals sampleState.internalTime ["14", "15", "12", "2030"]
      = .ok { hour := 14, day := 15, month := 12, year := 2030 } :=
  (absolute_set_exact).1 sampleState.internalTime "14" "15" "12" "2030"
    14 15 12 2030 rfl rfl rfl rfl (by decide) (by decide)

/-- C4 counterexample: the 4-token input 25, 15, 6, 2024 satisfies the claim's
validity conditions, yet the stored record is hour 1 of June 16, not the
parsed integers: time.Date folded hour 25 into the next day. -/
theorem absolute_set_exact_cex :
    (setTime sampleState now0 ["25", "15", "6", "2024"]).1.internalTime
      = { hour := 1, day := 16, month := 6, year := 2024 }
    ∧ ({ hour := 1, day := 16, month := 6, year := 2024 } : TimeRec)
      ≠ { hour := 25, day := 15, month := 6, year := 2024 } :=
  ⟨rfl, by decide⟩

/-- C2 (amended): after every setTime call, and at initialization, the month
of the stored TimeRecord is in 1-12, provided the wall-clock month is; an
absolute numeric month token outside 1-12 is rejected before commit, but a
relative month mutation whose sum lies outside 1-12 is committed and
normalized into range by time.Date rather than rejected. -/
theorem month_invariant (st : GoState) (now : TimeRec) (args : List String)
    (hst : 1 ≤ st.internalTime.month ∧ st.internalTime.month ≤ 12)
    (hnow : 1 ≤ now.month ∧ now.month ≤ 12) :
    (1 ≤ (setTime st now args).1.internalTime.month
      ∧ (setTime st now args).1.internalTime.month ≤ 12)
    ∧ (∀ defLoc : Location, 1 ≤ (initState now defLoc).internalTime.month
      ∧ (initState now defLoc).internalTime.month ≤ 12)
    ∧ (∀ (cur : TimeRec) (tok : String) (n : Int),
      parseIntChars tok.data = some n → n < 1 ∨ 12 < n →
      setTimeVals cur ["*", "*", tok, "*"] = .error (.monthRange n)) := by
  refine ⟨?_, fun defLoc => hnow, ?_⟩
  · cases args with
    | nil => exact hnow
    | cons a0 rest =>
        simp only [setTime]
        by_cases hh : a0 = "--help" ∨ a0 = "-h"
        · rw [if_pos hh]
          exact hst
        · rw [if_neg hh]
          by_cases hm : hasPfx militaryPfx.data a0.data = true
          · rw [if_pos hm]
            split
            · exact hst
            · exact hst
          · rw [if_neg hm]
            split
            · exact hst
            · exact goDate_month_bounds _ _ _ _
  · intro cur tok n hp hr
    simp only [setTimeVals, fldOrder, List.zip_cons_cons, List.zip_nil_right,
      setTimeLoop, stepField_wild, stepField_month_range cur hp hr]

/-- C2 witness: the out-of-range relative month call commits a stored month
back inside 1-12, and the absolute token 13 is rejected with the range
error. -/
theorem month_invariant_w :
    (1 ≤ (setTime sampleState now0 ["*", "*", "/100", "*"]).1.internalTime.month
      ∧ (setTime sampleState now0 ["*", "*", "/100", "*"]).1.internalTime.month ≤ 12)
    ∧ setTimeVals sampleState.internalTime ["*", "*", "13", "*"]
        = .error (.monthRange 13) :=
  ⟨(month_invariant sampleState now0 ["*", "*", "/100", "*"]
      (by decide) (by decide)).1,
   (month_invariant sampleState now0 ["*", "*", "/100", "*"]
      (by decide) (by decide)).2.2 sampleState.internalTime "13" 13 rfl (by decide)⟩

/-- C2 counterexample: the relative month mutation to 106, outside 1-12, is
not rejected before commit: the call succeeds, changes the state, and stores
the normalized month 10 of year 2032. -/
theorem month_invariant_cex :
    (setTime sampleState now0 ["*", "*", "/100", "*"]).1 ≠ sampleState
    ∧ (setTime sampleState now0 ["*", "*", "/100", "*"]).1.internalTime
        = { hour := 9, day := 15, month := 10, year := 2032 }
    ∧ (setTime sampleState now0 ["*", "*", "/100", "*"]).2
        = "  set time to: 9AM, October 15, 2032" :=
  ⟨by decide, rfl, rfl⟩

end Weth
